import Mathlib

/-!
Shallow embedding of the AJA_tools repository (aja_tools/logfile_tools.py,
logfile_tools.py, recipe_parser.py).

Python strings are modelled as lists of characters (`PyStr`); Python dicts as
insertion-ordered association lists with unique keys; a raised Python
exception as `Except.error` carrying the exception's name; the external
`dateutil.parser.parse` as an abstract `PyStr → Option Int` oracle (a raised
parse exception is `none`, timestamps are modelled as integers); file contents
are passed in as values, so file reading is outside the model.
-/

/-- Python `str` modelled as a list of characters. -/
abbrev PyStr := List Char

/-- Python `str.strip(chars)`: remove every character that occurs in `chars`
from both ends of the string (it strips a character *set*, not a suffix). -/
def pyStrip (chars : PyStr) (s : PyStr) : PyStr :=
  ((s.dropWhile (fun c => c ∈ chars)).reverse.dropWhile (fun c => c ∈ chars)).reverse

/-- Python `str.split(sep)` for a one-character separator. -/
def splitOnChar (c : Char) : PyStr → List PyStr
  | [] => [[]]
  | x :: xs =>
    let r := splitOnChar c xs
    if x = c then [] :: r
    else
      match r with
      | h :: t => (x :: h) :: t
      | [] => [[x]]

/-- Python `sep.join(parts)` for a one-character separator. -/
def joinChar (c : Char) : List PyStr → PyStr
  | [] => []
  | [x] => x
  | x :: xs => x ++ c :: joinChar c xs

/-- Python string slice `s[a:b]` for nonnegative bounds. -/
def pySlice (l : PyStr) (a b : Nat) : PyStr := (l.take b).drop a

/-- Python list slice `l[0:-2]`. -/
def pyDropLast2 (l : List PyStr) : List PyStr := l.take (l.length - 2)

/-- Python dict lookup `d[k]`, as an `Option` (a `KeyError` is `none`). -/
def lookupKey (k : PyStr) : List (PyStr × α) → Option α
  | [] => none
  | (k2, v) :: rest => if k2 = k then some v else lookupKey k rest

/-- Python dict assignment `d[k] = v` (replaces in place, else appends). -/
def setKey (k : PyStr) (v : α) : List (PyStr × α) → List (PyStr × α)
  | [] => [(k, v)]
  | (k2, v2) :: rest => if k2 = k then (k, v) :: rest else (k2, v2) :: setKey k v rest

/-- Python `d.update(upd)`. -/
def dictUpdate (d upd : List (PyStr × α)) : List (PyStr × α) :=
  upd.foldl (fun acc kv => setKey kv.1 kv.2 acc) d

/-- Python `os.path.basename`: the part of the path after the last slash. -/
def basename (p : PyStr) : PyStr := (splitOnChar '/' p).getLastD []

/-- The character set handed to `str.strip('.dlg')`. -/
def dlgChars : PyStr := ['.', 'd', 'l', 'g']

/-- Model of `get_job` from aja_tools/logfile_tools.py (line 87):
`'_'.join(os.path.basename(logfile_path).strip('.dlg').split('_')[0:-2])`. -/
def get_job (logfile_path : PyStr) : PyStr :=
  joinChar '_' (pyDropLast2 (splitOnChar '_' (pyStrip dlgChars (basename logfile_path))))

/-- The job-name expression inside `recipe_parser.get_job` (line 92):
`'_'.join(logfile_path.strip('.dlg').split('/')[-1].split('_')[0:-2])`. -/
def rp_job_name (logfile_path : PyStr) : PyStr :=
  joinChar '_' (pyDropLast2 (splitOnChar '_'
    ((splitOnChar '/' (pyStrip dlgChars logfile_path)).getLastD [])))

/-- The layer-collection loop of `filter_logs` (logfile_tools.py lines 113-117):
`for rix, recipe in enumerate(seq): if recipe == target: layers.append(rix+1)`,
with the enumeration counter starting at `rix`. -/
def layersForAux (target : PyStr) : Nat → List PyStr → List Nat
  | _, [] => []
  | rix, r :: rest =>
    if r = target then (rix + 1) :: layersForAux target (rix + 1) rest
    else layersForAux target (rix + 1) rest

/-- The layer list `filter_logs` computes for one log (enumeration from 0). -/
def layersFor (seq : List PyStr) (target : PyStr) : List Nat :=
  layersForAux target 0 seq

/-- The terminator lead byte `'\x00'` of the AJA job-file format. -/
def nulChar : Char := Char.ofNat 0

/-- Index (relative to the front of the given list) of the first occurrence of
`c`; building block for Python `str.find(c, i)`. -/
def findIdxIn (c : Char) : List Char → Option Nat
  | [] => none
  | x :: xs => if x = c then some 0 else (findIdxIn c xs).map (fun j => j + 1)

/-- Python `raw.find(c, i)`; `none` models the return value -1. -/
def findFrom (raw : PyStr) (c : Char) (i : Nat) : Option Nat :=
  (findIdxIn c (raw.drop i)).map (fun j => i + j)

/-- The scan loop of `parse_jobfile` (aja_tools/logfile_tools.py lines 131-150)
from a cursor `start > 0`: look for the next `'\x00'` strictly after
`start + 1`; if found at `next`, emit the name token `raw[start:next]` and the
terminator token `raw[next:next+4]` and continue at `next + 4`; otherwise, if
`start < len(raw) - 1`, emit the final name token `raw[start:]` and stop, else
stop having emitted nothing, recording the missing-final-step corruption
warning in the returned boolean. -/
def scanLoop (raw : PyStr) (start : Nat) : List (Nat × PyStr) × Bool :=
  match h : findIdxIn nulChar (raw.drop (start + 1)) with
  | some j =>
    let next := start + 1 + j
    let rest := scanLoop raw (next + 4)
    ((start, pySlice raw start next) :: (next, pySlice raw next (next + 4)) :: rest.1,
      rest.2)
  | none =>
    if (start : Int) < (raw.length : Int) - 1 then
      ([(start, raw.drop start)], false)
    else
      ([], true)
termination_by raw.length + 4 - start
decreasing_by
  by_cases hlt : start + 1 < raw.length
  · omega
  · exfalso
    have hnil : raw.drop (start + 1) = [] := by
      apply List.drop_eq_nil_of_le; omega
    rw [hnil] at h
    simp [findIdxIn] at h

/-- The full token list built by `parse_jobfile`'s scan: the initializer token
`(0, raw[0:8])` followed by the loop tokens, plus the corruption-warning flag. -/
def parse_scan (raw : PyStr) : List (Nat × PyStr) × Bool :=
  ((0, raw.take 8) :: (scanLoop raw 8).1, (scanLoop raw 8).2)

/-- The comprehension `[r[1] for r in raw_recipe if r[1][0] != '\x00']`
(line 155); the indexing `r[1][0]` raises `IndexError` when the token text is
empty. -/
def tokensFilter : List (Nat × PyStr) → Except String (List PyStr)
  | [] => Except.ok []
  | (_, t) :: rest =>
    match t with
    | [] => Except.error "IndexError"
    | c :: cs =>
      (tokensFilter rest).map (fun r => if c ≠ nulChar then (c :: cs) :: r else r)

/-- Model of `parse_jobfile` (aja_tools/logfile_tools.py lines 116-169) on raw file
content, with `return_raw_recipe = False`: scan, filter out NUL-led tokens,
prepend the sentinel `'Start'`.  The wrong-extension `NameError` concerns the
file *path*, not the content, and is outside this content-level model; the
empty-recipe condition only issues a warning, not a control-flow change. -/
def parse_jobfile (raw : PyStr) : Except String (List PyStr) :=
  (tokensFilter (parse_scan raw).1).map (fun pr => "Start".toList :: pr)

/-- One value of the `logs_dict` argument of `filter_logs` (logfile_tools.py):
a dict as returned by `recipe_parser.get_recipe`, whose `'recipe'` value may be
`None`, and whose cached `'data'` / `'layers'` keys may be absent (`none`). -/
structure GRLog where
  recipe : Option (List PyStr)
  data : Option PyStr
  layers : Option (List (PyStr × List Nat))
deriving DecidableEq

/-- The body of `filter_logs`'s per-entry loop (logfile_tools.py lines 97-119).
`import_logfile` (file I/O) is modelled by the total oracle `importData`.
The membership test `target_recipe in logs_dict[logfile]['recipe']` is
evaluated first; on a `None` recipe it raises `TypeError`, so the later
`is not None` guard is only ever reached with a non-`None` recipe. -/
def filterStep (importData : PyStr → PyStr) (target : PyStr)
    (read_data read_layers force : Bool) (name : PyStr) (log : GRLog) :
    Except String (Option GRLog) :=
  match log.recipe with
  | none => Except.error "TypeError"
  | some r =>
    if target ∈ r then
      -- if logs_dict[logfile]['recipe'] is not None: (trivially true here)
      let log1 :=
        if read_data && (log.data.isNone || force) then
          { log with data := some (importData name) }
        else log
      let log2 :=
        if read_layers then
          let ls := match log1.layers with | none => [] | some ls => ls
          if (lookupKey target ls).isNone || force then
            { log1 with layers := some (setKey target (layersFor r target) ls) }
          else { log1 with layers := some ls }
        else log1
      Except.ok (some log2)
    else Except.ok none

/-- Model of `filter_logs` (logfile_tools.py lines 55-121) over the entries of
`logs_dict` in insertion order; the first raised exception aborts the call. -/
def filter_logs (importData : PyStr → PyStr) (target : PyStr)
    (read_data read_layers force : Bool) :
    List (PyStr × GRLog) → Except String (List (PyStr × GRLog))
  | [] => Except.ok []
  | (name, log) :: rest => do
    let o ← filterStep importData target read_data read_layers force name log
    let r ← filter_logs importData target read_data read_layers force rest
    match o with
    | some lg => Except.ok ((name, lg) :: r)
    | none => Except.ok r

/-- Model of `recipe_parser.get_job` (recipe_parser.py lines 51-103).  With a
`job_folder_path` it executes `jobs = get_jobs_dict(job_folder_path)`, but no
`get_jobs_dict` is defined anywhere in the module (the defined function is
`build_jobs_dict`), so Python raises `NameError` at that call.  Without one,
`assert len(jobs_dict) > 0` raises `AssertionError` on an empty dict;
otherwise the job name is extracted, looked up (a `KeyError` is converted to
`None` plus a warning), and the pair is returned. -/
def rp_get_job (logfile_path : PyStr) (jobs_dict : List (PyStr × PyStr))
    (job_folder_path : Option PyStr) : Except String (PyStr × Option PyStr) :=
  match job_folder_path with
  | some _ => Except.error "NameError"
  | none =>
    if jobs_dict.length > 0 then
      let jobs : List (PyStr × PyStr) := []
      let jobs := dictUpdate jobs jobs_dict
      let job_name := rp_job_name logfile_path
      let job_file_path := lookupKey job_name jobs
      -- if job_file_path is None: warnings.warn("No matching job found!")
      Except.ok (job_name, job_file_path)
    else Except.error "AssertionError"

/-- One discovered log file, as `build_logs_list` sees it: its path and the
second physical line of its content (the first data row). -/
structure LogFile where
  path : PyStr
  firstline : PyStr
deriving DecidableEq

/-- One element of the list built by `build_logs_list`
(aja_tools/logfile_tools.py line 65). -/
structure LogEntry where
  job : PyStr
  datetime : Int
  path : PyStr
  recipe : Option (List PyStr)
deriving DecidableEq

/-- The body of `build_logs_list`'s per-file loop (aja_tools/logfile_tools.py
lines 50-67).  `dparse` is the `dateutil.parser.parse` oracle.  The unpacking
`date, time = firstline.split('\t')[0:2]` sits *outside* the try block and
raises `ValueError` when the row has fewer than two tab-separated fields; a
date-parse failure inside the try is warned about and yields no entry. -/
def processLog (dparse : PyStr → Option Int) (jobs : List (PyStr × List PyStr))
    (f : LogFile) : Except String (Option LogEntry) :=
  let job_name := get_job f.path
  let job_exists := (lookupKey job_name jobs).isSome
  match (splitOnChar '\t' f.firstline).take 2 with
  | [date, time] =>
    match dparse (date ++ [' '] ++ time) with
    | some dt =>
      let recipe := if job_exists then lookupKey job_name jobs else none
      Except.ok (some { job := job_name, datetime := dt, path := f.path, recipe := recipe })
    | none => Except.ok none  -- except: warnings.warn("Could not parse: " + logfile)
  | _ => Except.error "ValueError"

/-- The accumulation loop of `build_logs_list` over the discovered log files,
in discovery order; an uncaught exception aborts the whole batch. -/
def collectLogs (dparse : PyStr → Option Int) (jobs : List (PyStr × List PyStr)) :
    List LogFile → Except String (List LogEntry)
  | [] => Except.ok []
  | f :: rest => do
    let o ← processLog dparse jobs f
    let r ← collectLogs dparse jobs rest
    match o with
    | some e => Except.ok (e :: r)
    | none => Except.ok r

/-- Insert an entry into a list already sorted by datetime descending, before
the first element whose datetime is ≤ its own. -/
def insertDesc (e : LogEntry) : List LogEntry → List LogEntry
  | [] => [e]
  | x :: xs => if x.datetime ≤ e.datetime then e :: x :: xs else x :: insertDesc e xs

/-- Model of `logs.sort(key=lambda x: x['datetime'], reverse=True)` (line 69): Python's
sort is stable, and stable sorting by a total key is computed by this
insertion sort (each element is placed before exactly the strictly-smaller
keys that preceded it, preserving the relative order of equal keys). -/
def sortDesc : List LogEntry → List LogEntry
  | [] => []
  | x :: xs => insertDesc x (sortDesc xs)

/-- Model of `build_logs_list` (aja_tools/logfile_tools.py lines 38-71) with an explicit
`jobs` dict (the `jobs is None` branch only populates it from the directory,
which is file I/O outside the model); directory discovery is modelled by
passing the discovered `files` in walk order. -/
def build_logs_list (dparse : PyStr → Option Int) (jobs : List (PyStr × List PyStr))
    (files : List LogFile) : Except String (List LogEntry) :=
  (collectLogs dparse jobs files).map sortDesc

/-- The entry contributed by one log file when no exception escapes its loop
iteration (`none` when the file is skipped with a warning). -/
def okEntry (dparse : PyStr → Option Int) (jobs : List (PyStr × List PyStr))
    (f : LogFile) : Option LogEntry :=
  match processLog dparse jobs f with
  | Except.ok o => o
  | Except.error _ => none

/-! Concrete sample inputs used by the counterexamples and witnesses. -/

/-- A sample date oracle recognising one fixed date string. -/
def dparse0 (s : PyStr) : Option Int :=
  if s = "2020-01-01 10:00".toList then some 0 else none

/-- A log file with a well-formed first data row. -/
def goodLog : LogFile :=
  { path := "a/x_1_2.dlg".toList, firstline := "2020-01-01\t10:00\tfoo".toList }

/-- A log file whose first data row has no tab at all (fewer than two fields). -/
def badLog : LogFile :=
  { path := "a/y_1_2.dlg".toList, firstline := "broken".toList }

/-- A log file with two tab-separated fields that do not parse as a date. -/
def badDateLog : LogFile :=
  { path := "a/z_1_2.dlg".toList, firstline := "what\tever\tfoo".toList }

/-- A 9-character buffer with no `'\x00'` anywhere. -/
def rawNine : PyStr := "ABCDEFGHI".toList

/-- A 14-character buffer with no `'\x00'` at any position ≥ 15. -/
def rawFourteen : PyStr := "ABCDEFGHIJKLMN".toList

/-- A 12-character buffer with no `'\x00'` at any position ≥ 8. -/
def rawTwelve : PyStr := "ABCDEFGHIJKL".toList

deriving instance DecidableEq for Except

def grlogGood : GRLog := { recipe := some ["A".toList], data := none, layers := none }

def grlogOrphan : GRLog := { recipe := none, data := none, layers := none }

def logsSample : List (PyStr × GRLog) :=
  [("log1".toList, grlogGood), ("log2".toList, grlogOrphan)]

def importNone : PyStr → PyStr := fun _ => []

theorem scanLoop_found (raw : PyStr) (start j : Nat)
    (h : findIdxIn nulChar (raw.drop (start + 1)) = some j) :
    scanLoop raw start =
      ((start, pySlice raw start (start + 1 + j)) ::
        (start + 1 + j, pySlice raw (start + 1 + j) (start + 1 + j + 4)) ::
        (scanLoop raw (start + 1 + j + 4)).1,
       (scanLoop raw (start + 1 + j + 4)).2) := by
  rw [scanLoop]
  split <;> simp_all

theorem scanLoop_last (raw : PyStr) (start : Nat)
    (h : findIdxIn nulChar (raw.drop (start + 1)) = none)
    (hlt : (start : Int) < (raw.length : Int) - 1) :
    scanLoop raw start = ([(start, raw.drop start)], false) := by
  rw [scanLoop]
  simp [hlt]
  split <;> simp_all

theorem scanLoop_stop (raw : PyStr) (start : Nat)
    (h : findIdxIn nulChar (raw.drop (start + 1)) = none)
    (hlt : ¬ (start : Int) < (raw.length : Int) - 1) :
    scanLoop raw start = ([], true) := by
  rw [scanLoop]
  simp [hlt]
  split <;> simp_all


theorem findIdxIn_some_lt {c : Char} {xs : List Char} {j : Nat}
    (h : findIdxIn c xs = some j) : j < xs.length := by
  induction xs generalizing j with
  | nil => simp [findIdxIn] at h
  | cons x xs ih =>
    rw [findIdxIn] at h
    by_cases hx : x = c
    · simp [hx] at h
      simp only [List.length_cons]
      omega
    · simp [hx] at h
      obtain ⟨j2, hj2, rfl⟩ := h
      have := ih hj2
      simp
      omega

theorem findIdxIn_none {c : Char} {xs : List Char}
    (h : ∀ x ∈ xs, x ≠ c) : findIdxIn c xs = none := by
  induction xs with
  | nil => rfl
  | cons x xs ih =>
    rw [findIdxIn]
    have hx : ¬ x = c := h x (by simp)
    simp [hx]
    exact ih (fun y hy => h y (by simp [hy]))

theorem pySlice_length (l : PyStr) (a b : Nat) :
    (pySlice l a b).length = min b l.length - a := by
  simp [pySlice]

theorem scanLoop_tokens_nonempty (raw : PyStr) (start : Nat) :
    ∀ t ∈ (scanLoop raw start).1, t.2 ≠ [] := by
  induction start using scanLoop.induct raw with
  | case1 start j h next ih =>
    intro t ht
    have hj : j < (raw.drop (start + 1)).length := findIdxIn_some_lt h
    have hjlen : start + 1 + j < raw.length := by
      simp at hj
      omega
    rw [scanLoop_found raw start j h] at ht
    simp at ht
    rcases ht with h1 | h1 | h1
    · rw [h1]
      intro he
      have := congrArg List.length he
      rw [pySlice_length] at this
      simp at this
      omega
    · rw [h1]
      intro he
      have := congrArg List.length he
      rw [pySlice_length] at this
      simp at this
      omega
    · exact ih t h1
  | case2 start h hlt =>
    intro t ht
    rw [scanLoop_last raw start h hlt] at ht
    simp at ht
    rw [ht]
    intro he
    have := congrArg List.length he
    simp at this
    omega
  | case3 start h hlt =>
    intro t ht
    rw [scanLoop_stop raw start h hlt] at ht
    simp at ht


theorem layersForAux_mem (target : PyStr) (l : List PyStr) (n : Nat) :
    ∀ k, n ∈ layersForAux target k l ↔
      ∃ i, ∃ h : i < l.length, l.get ⟨i, h⟩ = target ∧ n = k + i + 1 := by
  induction l with
  | nil => simp [layersForAux]
  | cons r rest ih =>
    intro k
    rw [layersForAux]
    by_cases hr : r = target
    · simp only [hr, if_true]
      constructor
      · intro hn
        rcases List.mem_cons.mp hn with rfl | hn2
        · exact ⟨0, by simp, by simp [hr], by omega⟩
        · obtain ⟨i, hi, hget, hn⟩ := (ih (k + 1)).mp hn2
          refine ⟨i + 1, by simp; omega, ?_, by omega⟩
          simpa using hget
      · rintro ⟨i, hi, hget, rfl⟩
        cases i with
        | zero => simp
        | succ i2 =>
          refine List.mem_cons.mpr (Or.inr ((ih (k + 1)).mpr ⟨i2, ?_, ?_, by omega⟩))
          · simpa using hi
          · simpa using hget
    · simp only [hr, if_false]
      constructor
      · intro hn
        obtain ⟨i, hi, hget, hn⟩ := (ih (k + 1)).mp hn
        refine ⟨i + 1, by simp; omega, ?_, by omega⟩
        simpa using hget
      · rintro ⟨i, hi, hget, rfl⟩
        cases i with
        | zero => exact absurd (by simpa using hget) hr
        | succ i2 =>
          refine (ih (k + 1)).mpr ⟨i2, ?_, ?_, by omega⟩
          · simpa using hi
          · simpa using hget

theorem layersForAux_length (target : PyStr) (l : List PyStr) :
    ∀ k, (layersForAux target k l).length = l.count target := by
  induction l with
  | nil => intro k; simp [layersForAux]
  | cons r rest ih =>
    intro k
    rw [layersForAux, List.count_cons]
    by_cases hr : r = target
    · simp [hr, ih (k + 1)]
    · have : ¬ (r == target) := by simpa using hr
      simp [hr, this, ih (k + 1)]


theorem insertDesc_mem (e a : LogEntry) (l : List LogEntry) :
    a ∈ insertDesc e l ↔ a = e ∨ a ∈ l := by
  induction l with
  | nil => simp [insertDesc]
  | cons x xs ih =>
    rw [insertDesc]
    by_cases hle : x.datetime ≤ e.datetime
    · simp [hle]
    · simp only [hle, if_false, List.mem_cons, ih]
      tauto

theorem sortDesc_mem (a : LogEntry) (l : List LogEntry) : a ∈ sortDesc l ↔ a ∈ l := by
  induction l with
  | nil => simp [sortDesc]
  | cons x xs ih => rw [sortDesc]; simp [insertDesc_mem, ih]

theorem insertDesc_pairwise (e : LogEntry) (l : List LogEntry)
    (h : l.Pairwise (fun a b => b.datetime ≤ a.datetime)) :
    (insertDesc e l).Pairwise (fun a b => b.datetime ≤ a.datetime) := by
  induction l with
  | nil => simp [insertDesc]
  | cons x xs ih =>
    rw [insertDesc]
    rcases List.pairwise_cons.mp h with ⟨hx, hxs⟩
    by_cases hle : x.datetime ≤ e.datetime
    · simp only [hle, if_true]
      refine List.pairwise_cons.mpr ⟨?_, h⟩
      intro b hb
      rcases List.mem_cons.mp hb with rfl | hb2
      · exact hle
      · exact le_trans (hx b hb2) hle
    · simp only [hle, if_false]
      refine List.pairwise_cons.mpr ⟨?_, ih hxs⟩
      intro b hb
      rcases (insertDesc_mem e b xs).mp hb with rfl | hb2
      · omega
      · exact hx b hb2

theorem sortDesc_pairwise (l : List LogEntry) :
    (sortDesc l).Pairwise (fun a b => b.datetime ≤ a.datetime) := by
  induction l with
  | nil => simp [sortDesc]
  | cons x xs ih => rw [sortDesc]; exact insertDesc_pairwise x (sortDesc xs) ih

theorem filter_insertDesc (d : Int) (e : LogEntry) (l : List LogEntry) :
    (insertDesc e l).filter (fun x => x.datetime == d) =
      if e.datetime == d then e :: l.filter (fun x => x.datetime == d)
      else l.filter (fun x => x.datetime == d) := by
  induction l with
  | nil =>
    rw [insertDesc]
    by_cases hd : e.datetime = d <;> simp [hd]
  | cons x xs ih =>
    rw [insertDesc]
    by_cases hle : x.datetime ≤ e.datetime
    · simp only [hle, if_true]
      by_cases hd : e.datetime = d <;> simp [hd, List.filter_cons]
    · simp only [hle, if_false]
      by_cases hd : e.datetime = d
      · have hxd : ¬ x.datetime = d := by omega
        simp [List.filter_cons, hxd, ih, hd]
      · simp [List.filter_cons, ih, hd]

theorem filter_sortDesc (d : Int) (l : List LogEntry) :
    (sortDesc l).filter (fun x => x.datetime == d) = l.filter (fun x => x.datetime == d) := by
  induction l with
  | nil => simp [sortDesc]
  | cons x xs ih =>
    rw [sortDesc, filter_insertDesc]
    by_cases hd : x.datetime = d <;> simp [hd, List.filter_cons, ih]


theorem take_two_of_le {l : List PyStr} (h : 2 ≤ l.length) :
    ∃ a b, l.take 2 = [a, b] := by
  match l with
  | [] => simp at h
  | [a] => simp at h
  | a :: b :: rest => exact ⟨a, b, rfl⟩

theorem processLog_isOk (dparse : PyStr → Option Int) (jobs : List (PyStr × List PyStr))
    (f : LogFile) (h2 : 2 ≤ (splitOnChar '\t' f.firstline).length) :
    processLog dparse jobs f = Except.ok (okEntry dparse jobs f) := by
  obtain ⟨a, b, htake⟩ := take_two_of_le h2
  rw [okEntry, processLog, htake]
  split <;> simp_all
  split <;> simp

theorem collectLogs_eq_filterMap (dparse : PyStr → Option Int)
    (jobs : List (PyStr × List PyStr)) (files : List LogFile)
    (h : ∀ f ∈ files, 2 ≤ (splitOnChar '\t' f.firstline).length) :
    collectLogs dparse jobs files = Except.ok (files.filterMap (okEntry dparse jobs)) := by
  induction files with
  | nil => simp [collectLogs]
  | cons f rest ih =>
    have hf := processLog_isOk dparse jobs f (h f (by simp))
    have hrest := ih (fun g hg => h g (by simp [hg]))
    rw [collectLogs]
    rw [hf, hrest]
    simp only [Bind.bind, Except.bind, List.filterMap_cons]
    cases okEntry dparse jobs f <;> simp

theorem collectLogs_mem (dparse : PyStr → Option Int) (jobs : List (PyStr × List PyStr))
    (files : List LogFile) (es : List LogEntry) (f : LogFile) (e : LogEntry)
    (h : collectLogs dparse jobs files = Except.ok es) (hf : f ∈ files)
    (ho : processLog dparse jobs f = Except.ok (some e)) : e ∈ es := by
  induction files generalizing es with
  | nil => simp at hf
  | cons g rest ih =>
    rw [collectLogs] at h
    rcases List.mem_cons.mp hf with rfl | hf2
    · rw [ho] at h
      cases hcr : collectLogs dparse jobs rest with
      | error msg => rw [hcr] at h; simp [Bind.bind, Except.bind] at h
      | ok r =>
        rw [hcr] at h
        simp [Bind.bind, Except.bind] at h
        rw [← h]
        simp
    · cases hpg : processLog dparse jobs g with
      | error msg => rw [hpg] at h; simp [Bind.bind, Except.bind] at h
      | ok o =>
        rw [hpg] at h
        cases hcr : collectLogs dparse jobs rest with
        | error msg => rw [hcr] at h; simp [Bind.bind, Except.bind] at h
        | ok r =>
          rw [hcr] at h
          have hr : e ∈ r := ih r hcr hf2
          cases o with
          | none =>
            simp [Bind.bind, Except.bind] at h
            rw [← h]; exact hr
          | some x =>
            simp [Bind.bind, Except.bind] at h
            rw [← h]; simp [hr]

theorem build_ok_inv (dparse : PyStr → Option Int) (jobs : List (PyStr × List PyStr))
    (files : List LogFile) (l : List LogEntry)
    (h : build_logs_list dparse jobs files = Except.ok l) :
    ∃ es, collectLogs dparse jobs files = Except.ok es ∧ l = sortDesc es := by
  rw [build_logs_list] at h
  cases hcr : collectLogs dparse jobs files with
  | error msg => rw [hcr] at h; simp [Except.map] at h
  | ok es =>
    rw [hcr] at h
    simp [Except.map] at h
    exact ⟨es, rfl, h.symm⟩


theorem tokensFilter_ok (toks : List (Nat × PyStr)) (h : ∀ t ∈ toks, t.2 ≠ []) :
    ∃ r, tokensFilter toks = Except.ok r := by
  induction toks with
  | nil => exact ⟨[], rfl⟩
  | cons t rest ih =>
    obtain ⟨ix, txt⟩ := t
    cases txt with
    | nil => exact absurd rfl (h (ix, []) (by simp))
    | cons c cs =>
      obtain ⟨r, hr⟩ := ih (fun u hu => h u (by simp [hu]))
      rw [tokensFilter, hr]
      exact ⟨_, rfl⟩

/-- C1: on "dep_run_2020-01-01_003.dlg" `get_job` returns "ep_run", not the
claimed "dep_run": `str.strip('.dlg')` strips the character set {., d, l, g}
and eats the leading 'd' of the job name. -/
theorem C1_get_job_on_sample :
    get_job "dep_run_2020-01-01_003.dlg".toList = "ep_run".toList ∧
      "ep_run".toList ≠ "dep_run".toList := by decide

/-- C2 counterexample: on ["Start","A","B","A"] with target "A" the code
returns [2, 4]; index 1 (where the sequence holds "A") is not in the result. -/
theorem C2_counterexample :
    layersFor ["Start".toList, "A".toList, "B".toList, "A".toList] "A".toList = [2, 4] ∧
      (1 : Nat) ∉ layersFor ["Start".toList, "A".toList, "B".toList, "A".toList] "A".toList ∧
      ["Start".toList, "A".toList, "B".toList, "A".toList].get ⟨1, by decide⟩ = "A".toList := by
  decide

/-- C2 amended: the mapping returns exactly { i + 1 : sequence[i] = target },
one element per occurrence (no deduplication). -/
theorem C2_layers_shifted (seq : List PyStr) (target : PyStr) :
    (∀ n, n ∈ layersFor seq target ↔
      ∃ i, ∃ h : i < seq.length, seq.get ⟨i, h⟩ = target ∧ n = i + 1) ∧
    (layersFor seq target).length = seq.count target := by
  constructor
  · intro n
    rw [layersFor, layersForAux_mem target seq n 0]
    constructor
    · rintro ⟨i, h, hg, rfl⟩; exact ⟨i, h, hg, by omega⟩
    · rintro ⟨i, h, hg, rfl⟩; exact ⟨i, h, hg, by omega⟩
  · rw [layersFor, layersForAux_length target seq 0]

/-- C3 counterexample: a 9-byte buffer with no NUL anywhere satisfies the
claim's premise, yet the scan emits no name token at all and sets the
corruption-warning flag. -/
theorem C3_counterexample :
    (∀ ch ∈ rawNine.drop 8, ch ≠ nulChar) ∧ scanLoop rawNine 8 = ([], true) :=
  ⟨by decide, scanLoop_stop rawNine 8 (by decide) (by decide)⟩

/-- C3 amended: for a buffer with no 0x00 at positions ≥ 8, if the buffer has
length ≥ 10 the scan emits exactly one (non-empty) name token spanning bytes
[8, end) with no corruption warning; if it has length ≤ 9 the scan emits
nothing and reports the truncation warning. -/
theorem C3_single_token (raw : PyStr)
    (hnul : ∀ ch ∈ raw.drop 8, ch ≠ nulChar) :
    (10 ≤ raw.length → scanLoop raw 8 = ([(8, raw.drop 8)], false) ∧ raw.drop 8 ≠ []) ∧
    (raw.length ≤ 9 → scanLoop raw 8 = ([], true)) := by
  have hfind : findIdxIn nulChar (raw.drop 9) = none := by
    apply findIdxIn_none
    intro x hx
    apply hnul
    have h9 : raw.drop 9 = (raw.drop 8).drop 1 := by rw [List.drop_drop]
    rw [h9] at hx
    exact List.drop_subset 1 _ hx
  constructor
  · intro hlen
    refine ⟨scanLoop_last raw 8 hfind (by omega), ?_⟩
    intro he
    have := congrArg List.length he
    simp at this
    omega
  · intro hlen
    exact scanLoop_stop raw 8 hfind (by omega)

/-- C3 witness: a concrete 12-byte NUL-free buffer. -/
theorem C3_witness :
    (∀ ch ∈ rawTwelve.drop 8, ch ≠ nulChar) ∧ 10 ≤ rawTwelve.length ∧
      scanLoop rawTwelve 8 = ([(8, rawTwelve.drop 8)], false) :=
  ⟨by decide, by decide, ((C3_single_token rawTwelve (by decide)).1 (by decide)).1⟩


/-- C4 counterexample: a batch with a well-formed log followed by a log whose
first data row has no tab aborts wholesale with ValueError — the well-formed
log (which does produce an entry on its own) is lost too. -/
theorem C4_counterexample :
    build_logs_list dparse0 [] [goodLog, badLog] = Except.error "ValueError" ∧
      okEntry dparse0 [] goodLog ≠ none := by decide

/-- C4 amended: when every first data row has at least two tab-separated
fields, the batch never aborts: each log contributes its entry or is excluded
with a warning (date-parse failure), and the rest are returned sorted. -/
theorem C4_two_field_rows_isolated (dparse : PyStr → Option Int)
    (jobs : List (PyStr × List PyStr)) (files : List LogFile)
    (h : ∀ f ∈ files, 2 ≤ (splitOnChar '\t' f.firstline).length) :
    build_logs_list dparse jobs files =
      Except.ok (sortDesc (files.filterMap (okEntry dparse jobs))) := by
  rw [build_logs_list, collectLogs_eq_filterMap dparse jobs files h]
  rfl

/-- C4 witness: a good log plus a two-field log with an unparseable date. -/
theorem C4_witness :
    (∀ f ∈ [goodLog, badDateLog], 2 ≤ (splitOnChar '\t' f.firstline).length) ∧
      build_logs_list dparse0 [] [goodLog, badDateLog] =
        Except.ok (sortDesc ([goodLog, badDateLog].filterMap (okEntry dparse0 []))) :=
  ⟨by decide, C4_two_field_rows_isolated dparse0 [] [goodLog, badDateLog] (by decide)⟩

/-- C5: a log whose derived job name has no catalog entry still yields an
entry in the returned list, with recipe = none. -/
theorem C5_orphan_included (dparse : PyStr → Option Int)
    (jobs : List (PyStr × List PyStr)) (files : List LogFile) (l : List LogEntry)
    (f : LogFile) (d t : PyStr) (rest : List PyStr) (dt : Int)
    (hok : build_logs_list dparse jobs files = Except.ok l)
    (hf : f ∈ files)
    (hsplit : splitOnChar '\t' f.firstline = d :: t :: rest)
    (hdt : dparse (d ++ [' '] ++ t) = some dt)
    (hjob : lookupKey (get_job f.path) jobs = none) :
    ∃ e ∈ l, e.path = f.path ∧ e.job = get_job f.path ∧ e.recipe = none ∧
      e.datetime = dt := by
  obtain ⟨es, hcoll, rfl⟩ := build_ok_inv dparse jobs files l hok
  have hdt2 : dparse (d ++ ' ' :: t) = some dt := by simpa using hdt
  have hpl : processLog dparse jobs f = Except.ok (some
      { job := get_job f.path, datetime := dt, path := f.path, recipe := none }) := by
    rw [processLog, hsplit]
    simp [hdt2, hjob]
  have hmem := collectLogs_mem dparse jobs files es f _ hcoll hf hpl
  exact ⟨_, (sortDesc_mem _ es).mpr hmem, rfl, rfl, rfl, rfl⟩

/-- C5 witness: one log, empty catalog. -/
theorem C5_witness :
    build_logs_list dparse0 [] [goodLog] =
        Except.ok (sortDesc ([goodLog].filterMap (okEntry dparse0 []))) ∧
      ∃ e ∈ sortDesc ([goodLog].filterMap (okEntry dparse0 [])),
        e.path = goodLog.path ∧ e.job = get_job goodLog.path ∧ e.recipe = none ∧
          e.datetime = 0 :=
  ⟨by decide,
    C5_orphan_included dparse0 [] [goodLog] _ goodLog "2020-01-01".toList "10:00".toList
      ["foo".toList] 0 (by decide) (by decide) (by decide) (by decide) rfl⟩

/-- C7: the returned list is sorted by datetime descending (so strictly
descending across distinct timestamps), and entries with equal timestamps
appear in their discovery order (Python sort is stable). -/
theorem C7_sorted_desc_stable (dparse : PyStr → Option Int)
    (jobs : List (PyStr × List PyStr)) (files : List LogFile)
    (es l : List LogEntry)
    (hcoll : collectLogs dparse jobs files = Except.ok es)
    (hok : build_logs_list dparse jobs files = Except.ok l) :
    l.Pairwise (fun a b => b.datetime ≤ a.datetime) ∧
      ∀ d : Int, l.filter (fun e => e.datetime == d) =
        es.filter (fun e => e.datetime == d) := by
  obtain ⟨es2, hcoll2, rfl⟩ := build_ok_inv dparse jobs files l hok
  have hes : es = es2 := by
    injection hcoll.symm.trans hcoll2
  subst hes
  exact ⟨sortDesc_pairwise es, fun d => filter_sortDesc d es⟩

/-- C7 witness. -/
theorem C7_witness :
    collectLogs dparse0 [] [goodLog] = Except.ok ([goodLog].filterMap (okEntry dparse0 [])) ∧
      build_logs_list dparse0 [] [goodLog] =
        Except.ok (sortDesc ([goodLog].filterMap (okEntry dparse0 []))) ∧
      ((sortDesc ([goodLog].filterMap (okEntry dparse0 []))).Pairwise
          (fun a b => b.datetime ≤ a.datetime) ∧
        ∀ d : Int,
          (sortDesc ([goodLog].filterMap (okEntry dparse0 []))).filter
              (fun e => e.datetime == d) =
            ([goodLog].filterMap (okEntry dparse0 [])).filter (fun e => e.datetime == d)) :=
  ⟨by decide, by decide,
    C7_sorted_desc_stable dparse0 [] [goodLog] _ _ (by decide) (by decide)⟩


/-- C6: when `find` reports no further NUL and the cursor is at or past the
last byte, the scan stops emitting nothing (no spurious empty trailing token)
and records the truncation warning in the flag instead of raising; moreover no
token the scan ever emits has empty text. -/
theorem C6_boundary_no_spurious_token (raw : PyStr) (cur : Nat) :
    ((findFrom raw nulChar (cur + 1) = none ∧ ¬ (cur : Int) < (raw.length : Int) - 1) →
      scanLoop raw cur = ([], true)) ∧
    (∀ t ∈ (scanLoop raw cur).1, t.2 ≠ []) := by
  constructor
  · rintro ⟨hfind, hlt⟩
    have hidx : findIdxIn nulChar (raw.drop (cur + 1)) = none := by
      rw [findFrom] at hfind
      exact Option.map_eq_none.mp hfind
    exact scanLoop_stop raw cur hidx hlt
  · exact scanLoop_tokens_nonempty raw cur

/-- C6 witness: a 14-byte buffer probed at cursor 14 (exactly past the end). -/
theorem C6_witness :
    (findFrom rawFourteen nulChar 15 = none ∧
        ¬ (14 : Int) < (rawFourteen.length : Int) - 1) ∧
      scanLoop rawFourteen 14 = ([], true) :=
  ⟨⟨by decide, by decide⟩,
    (C6_boundary_no_spurious_token rawFourteen 14).1 ⟨by decide, by decide⟩⟩

/-- C8: any logs dict containing an entry with a `None` recipe makes
`filter_logs` raise `TypeError` at the membership test, before the `is not
None` guard can skip it. -/
theorem C8_none_recipe_raises (importData : PyStr → PyStr) (target : PyStr)
    (rd rl fo : Bool) (logs : List (PyStr × GRLog))
    (h : ∃ p ∈ logs, p.2.recipe = none) :
    filter_logs importData target rd rl fo logs = Except.error "TypeError" := by
  induction logs with
  | nil =>
    obtain ⟨p, hp, _⟩ := h
    exact absurd hp (List.not_mem_nil p)
  | cons hd rest ih =>
    obtain ⟨name, log⟩ := hd
    rw [filter_logs]
    obtain ⟨p, hp, hrec⟩ := h
    rcases List.mem_cons.mp hp with rfl | hp2
    · simp only at hrec
      simp [filterStep, hrec, Bind.bind, Except.bind]
    · have herr := ih ⟨p, hp2, hrec⟩
      rw [herr]
      cases hlog : log.recipe with
      | none => simp [filterStep, hlog, Bind.bind, Except.bind]
      | some r =>
        simp only [filterStep, hlog, Bind.bind, Except.bind]
        split <;> rename_i heq
        · split at heq <;> exact Except.noConfusion heq
        · simp

/-- C8 witness: a dict with one healthy entry then one orphaned entry. -/
theorem C8_witness :
    grlogOrphan.recipe = none ∧
      filter_logs importNone "A".toList true true false logsSample =
        Except.error "TypeError" :=
  ⟨rfl, C8_none_recipe_raises importNone "A".toList true true false logsSample
    ⟨("log2".toList, grlogOrphan), by decide, rfl⟩⟩

/-- C9: calling recipe_parser.get_job with a job_folder_path raises NameError
(it calls the undefined `get_jobs_dict`); with it omitted, a non-empty
jobs_dict returns normally and an empty one raises AssertionError. -/
theorem C9_undefined_helper (p : PyStr) (jd : List (PyStr × PyStr)) (fp : Option PyStr) :
    (fp.isSome → rp_get_job p jd fp = Except.error "NameError") ∧
    (jd ≠ [] → rp_get_job p jd none =
      Except.ok (rp_job_name p, lookupKey (rp_job_name p) (dictUpdate [] jd))) ∧
    (jd = [] → rp_get_job p jd none = Except.error "AssertionError") := by
  refine ⟨?_, ?_, ?_⟩
  · intro hfp
    cases fp with
    | none => simp at hfp
    | some s => rfl
  · intro hjd
    have hlen : jd.length > 0 := List.length_pos.mpr hjd
    rw [rp_get_job]
    simp [hlen]
  · rintro rfl
    rfl

/-- C9 witness. -/
theorem C9_witness :
    ((some "jobs/".toList).isSome ∧
        rp_get_job "x_1_2.dlg".toList [("x".toList, "x.ajp".toList)]
          (some "jobs/".toList) = Except.error "NameError") ∧
      ([("x".toList, "x.ajp".toList)] ≠ ([] : List (PyStr × PyStr)) ∧
        rp_get_job "x_1_2.dlg".toList [("x".toList, "x.ajp".toList)] none =
          Except.ok (rp_job_name "x_1_2.dlg".toList,
            lookupKey (rp_job_name "x_1_2.dlg".toList)
              (dictUpdate [] [("x".toList, "x.ajp".toList)]))) :=
  ⟨⟨rfl, (C9_undefined_helper "x_1_2.dlg".toList [("x".toList, "x.ajp".toList)]
      (some "jobs/".toList)).1 rfl⟩,
    ⟨by decide, (C9_undefined_helper "x_1_2.dlg".toList [("x".toList, "x.ajp".toList)]
      (some "jobs/".toList)).2.1 (by decide)⟩⟩

/-- C10 counterexample: on empty file content the comprehension indexes
`r[1][0]` on the empty initializer token and raises IndexError, so
parse_jobfile does not return a list at all. -/
theorem C10_counterexample : parse_jobfile [] = Except.error "IndexError" := by
  have h8 : scanLoop ([] : PyStr) 8 = ([], true) := scanLoop_stop [] 8 (by decide) (by decide)
  rw [parse_jobfile, parse_scan, h8]
  rfl

/-- C10 amended: for every non-empty input content, parse_jobfile returns a
list whose element at index 0 is "Start" (hence non-empty). -/
theorem C10_start_sentinel (raw : PyStr) (hne : raw ≠ []) :
    ∃ rest, parse_jobfile raw = Except.ok ("Start".toList :: rest) := by
  have hinit : raw.take 8 ≠ [] := by
    cases raw with
    | nil => exact absurd rfl hne
    | cons c cs => simp
  have htoks : ∀ t ∈ (parse_scan raw).1, t.2 ≠ [] := by
    intro t ht
    rw [parse_scan] at ht
    rcases List.mem_cons.mp ht with rfl | h2
    · exact hinit
    · exact scanLoop_tokens_nonempty raw 8 t h2
  obtain ⟨pr, hpr⟩ := tokensFilter_ok (parse_scan raw).1 htoks
  exact ⟨pr, by rw [parse_jobfile, hpr]; rfl⟩

/-- C10 witness. -/
theorem C10_witness :
    ("x".toList ≠ ([] : PyStr)) ∧
      ∃ rest, parse_jobfile "x".toList = Except.ok ("Start".toList :: rest) :=
  ⟨by decide, C10_start_sentinel "x".toList (by decide)⟩
